import Mathlib

/-!
Verification development for the Brill-tagger template module
(`nltk/tag/brill/template.py`): a shallow embedding of the `Feature` and
`Template` classes, the process-wide template registry, rule enumeration
(`applicable_rules`), the dependency neighborhood, and the combinatorial
generators `Feature.expand` / `Template.expand`, together with theorems
settling the specified properties.

Python dynamic values that the constructors inspect are modelled by `PyVal`
(ints, strings, None, lists); Python exceptions by `PyErr` (`TypeError`,
`ValueError`, and a not-implemented error).  Machine integers do not occur:
Python ints are unbounded, so they are embedded as `Int`.
-/

namespace Brill

deriving instance DecidableEq for Except

/-- Python lexicographic `<` on strings: code-point comparison, as in
Python (and as in Lean's `String` order, but spelled out so that it
evaluates by kernel reduction). -/
def charListLt : List Char → List Char → Bool
  | _, [] => false
  | [], _ :: _ => true
  | c :: cs, d :: ds =>
      if c.toNat < d.toNat then true
      else if d.toNat < c.toNat then false
      else charListLt cs ds

/-- String `<` via `charListLt`. -/
def strLt (a b : String) : Bool := charListLt a.data b.data

/-- Python exception kinds relevant to this module. -/
inductive PyErr where
  | typeError
  | valueError
  | notImplementedError
deriving DecidableEq, Repr

/-- Dynamic Python values fed to the constructors: integers, strings,
`None`, and (possibly nested) lists. -/
inductive PyVal where
  | int (n : Int)
  | str (s : String)
  | none
  | list (xs : List PyVal)
deriving BEq, Repr

/-- Python `int(v)` coercion: an int is itself; a numeric string parses
(non-numeric strings raise `ValueError`); `None` and lists raise
`TypeError`.  Numeric-string parsing is modelled by `String.toInt?`. -/
def pyToInt : PyVal → Except PyErr Int
  | .int n => .ok n
  | .str s =>
      match s.toInt? with
      | some n => .ok n
      | Option.none => .error .valueError
  | .none => .error .typeError
  | .list _ => .error .typeError

/-- Python iteration `for i in v`: lists yield their elements, strings
yield their one-character substrings, anything else raises `TypeError`. -/
def pyIter : PyVal → Except PyErr (List PyVal)
  | .list xs => .ok xs
  | .str s => .ok (s.data.map fun c => PyVal.str (String.mk [c]))
  | _ => .error .typeError

/-- Insert an integer into a strictly sorted list, keeping it strictly
sorted (duplicates are dropped). -/
def insertSortedU (x : Int) : List Int → List Int
  | [] => [x]
  | y :: ys =>
      if x < y then x :: y :: ys
      else if x = y then y :: ys
      else y :: insertSortedU x ys

/-- `tuple(sorted(set(l)))`: the strictly increasing enumeration of the
distinct elements of `l`. -/
def dedupSort (l : List Int) : List Int :=
  l.foldl (fun acc x => insertSortedU x acc) []

/-- Python `range(a, b + 1)` over ints (empty when `b < a`). -/
def intRange (a b : Int) : List Int :=
  (List.range (b + 1 - a).toNat).map (fun i => a + i)

/-- A `Feature` value: the variant (subclass) name together with the stored
`positions` tuple.  The property-extraction method is carried separately,
keyed by the variant name, since every instance of a variant shares it. -/
structure Feature where
  name : String
  positions : List Int
deriving DecidableEq, Repr

/-- `Feature.__init__(self, positions, end=None)`.  With `end = None` the
first argument is iterated and each element coerced with `int`, and the
sorted deduplicated tuple is stored.  Otherwise the pair is the inclusive
range form: `if positions > end: raise TypeError()` then
`range(positions, end+1)`, any `TypeError` on that path being re-raised as
`ValueError`; every non-`(int, int)` pair of arguments ends in `TypeError`
on that path (mixed-type comparison, or `end + 1`, or `range`), hence in
`ValueError`. -/
def featureInit (nm : String) (positions : PyVal) (endv : Option PyVal) :
    Except PyErr Feature :=
  match endv with
  | Option.none => do
      let xs ← pyIter positions
      let is ← xs.mapM pyToInt
      .ok ⟨nm, dedupSort is⟩
  | some e =>
      match positions, e with
      | .int a, .int b =>
          if a > b then .error .valueError
          else .ok ⟨nm, intRange a b⟩
      | _, _ => .error .valueError

/-- Python lexicographic `<` on int tuples. -/
def listIntLt : List Int → List Int → Bool
  | _, [] => false
  | [], _ :: _ => true
  | x :: xs, y :: ys =>
      if x < y then true
      else if y < x then false
      else listIntLt xs ys

/-- `Feature.__lt__` exactly as coded:
`self.__class__.__name__ < other.__class__.__name__ or
 self.positions < other.positions`. -/
def featureLt (a b : Feature) : Bool :=
  strLt a.name b.name || listIntLt a.positions b.positions

/-- The comparison the specification describes: primary key the variant
type name, secondary key the positions tuple (both lexicographic). -/
def claimLt (a b : Feature) : Bool :=
  strLt a.name b.name || (a.name == b.name && listIntLt a.positions b.positions)

/-- `Feature.issuperset`: same variant and position-set inclusion. -/
def Feature.issuperset (a b : Feature) : Bool :=
  a.name == b.name && b.positions.all (fun p => p ∈ a.positions)

/-- `Feature.intersects`: same variant and a common position. -/
def Feature.intersects (a b : Feature) : Bool :=
  a.name == b.name && a.positions.any (fun p => p ∈ b.positions)

/-- `Feature.expand(starts, winlens, excludezero)`: after validating that
every window length is positive (else `ValueError`), enumerate the slices
`starts[i:i+w]` for each `w` in `winlens` and each fitting start index
`i`, keep those not hitting the `excludezero` filter, and build one
Feature from each via the Feature constructor.  (The Python code
interpolates `winlens` into the error message; message text is not
modelled.) -/
def featureExpand (nm : String) (starts winlens : List Int)
    (excludezero : Bool) : Except PyErr (List Feature) :=
  if !(winlens.all (fun x => 0 < x)) then .error .valueError
  else
    let xs := winlens.flatMap (fun w =>
      (List.range ((starts.length : Int) - w + 1).toNat).map
        (fun i => (starts.drop i).take w.toNat))
    (xs.filter (fun x => !(excludezero && x.contains 0))).mapM
      (fun x => featureInit nm (PyVal.list (x.map PyVal.int)) Option.none)

/-- Decimal digits of a natural number, most significant first, with
explicit fuel so that it evaluates by kernel reduction (the fuel
`n + 1` always suffices). -/
def decCharsAux : Nat → Nat → List Char
  | 0, _ => []
  | fuel + 1, n =>
      if n < 10 then [Nat.digitChar n]
      else decCharsAux fuel (n / 10) ++ [Nat.digitChar (n % 10)]

/-- Python `str(n)` for a natural number. -/
def decChars (n : Nat) : List Char := decCharsAux (n + 1) n

/-- Read a digit string back as a natural number (left inverse of
`decChars`, used to prove the template-id format injective). -/
def parseDec (l : List Char) : Nat :=
  l.foldl (fun a c => 10 * a + (c.toNat - 48)) 0

/-- Python `"%03d"`-style format (the id format `Template.__init__`
uses): the decimal representation left-padded with zeros to width at
least 3. -/
def fmt3 (n : Nat) : String :=
  String.mk (List.replicate (3 - (decChars n).length) '0' ++ decChars n)

/-- A constructed `Template`: its registry-assigned id string and its
ordered features. -/
structure Template where
  id : String
  features : List Feature
deriving DecidableEq, Repr

/-- The successful tail of `Template.__init__`: assign
`id = format(len(ALLTEMPLATES), "03d")` and append to the registry
(`ALLTEMPLATES` is modelled as an explicit `List Template` threaded
through). -/
def templateNew (fs : List Feature) (reg : List Template) :
    Template × List Template :=
  let t : Template := ⟨fmt3 reg.length, fs⟩
  (t, reg ++ [t])

/-- `Template.poptemplate`: drop (and return) the most recent registry
entry, a no-op on an empty registry.  Only the registry effect is
modelled here. -/
def popLast (reg : List Template) : List Template := reg.dropLast

/-- One dynamic argument of `Template.__init__`: a built `Feature`
instance, a `Feature` subclass (a variant), a tuple, or any other
Python value. -/
inductive TArg where
  | inst (f : Feature)
  | featCls (nm : String)
  | tup (vs : List PyVal)
  | other
deriving Repr

/-- `isinstance(a, Feature)`. -/
def isInstArg : TArg → Bool
  | .inst _ => true
  | _ => false

/-- `isinstance(a, tuple)`. -/
def isTupArg : TArg → Bool
  | .tup _ => true
  | _ => false

/-- The `Feature` instance held by an argument (meaningful under
`isInstArg`). -/
def argFeat : TArg → Feature
  | .inst f => f
  | _ => ⟨"", []⟩

/-- `Feature(*tp)` for a tuple argument `tp` of the legacy calling form:
arity 1 is `Feature(positions)`, arity 2 is `Feature(start, end)`, any
other arity is a `TypeError` from the call itself. -/
def featureFromTuple (nm : String) : List PyVal → Except PyErr Feature
  | [v] => featureInit nm v Option.none
  | [a, b] => featureInit nm a (some b)
  | _ => .error .typeError

/-- `Template.__init__(*features)` over the argument list, returning the
outcome and the resulting registry.  Branch (a): every argument is a
`Feature` instance (vacuously true of no arguments).  Branch (b): the
first argument is a `Feature` subclass — `issubclass` itself raises
`TypeError` when the first argument is not a class — and the remaining
arguments are tuples, each expanded through the `Feature` constructor;
a non-tuple among them reaches the explicit `raise TypeError`.  On any
failure the registry is unchanged (the append happens last). -/
def templateInit (args : List TArg) (reg : List Template) :
    Except PyErr Template × List Template :=
  if args.all isInstArg then
    let (t, reg2) := templateNew (args.map argFeat) reg
    (.ok t, reg2)
  else
    match args with
    | [] => (.error .typeError, reg)
    | a0 :: rest =>
        match a0 with
        | .featCls nm =>
            if rest.all isTupArg then
              match rest.mapM (fun a =>
                  match a with
                  | .tup vs => featureFromTuple nm vs
                  | _ => .error .typeError) with
              | .ok fs =>
                  let (t, reg2) := templateNew fs reg
                  (.ok t, reg2)
              | .error e => (.error e, reg)
            else (.error .typeError, reg)
        | _ => (.error .typeError, reg)

/-- A registry operation of a run: a construction (with the features it
was given) or an explicit undo-last. -/
inductive RegOp where
  | new (fs : List Feature)
  | pop

/-- Apply one registry operation to the pair (registry, log of every
template ever constructed, in construction order). -/
def applyOp : List Template × List Template → RegOp → List Template × List Template
  | (reg, log), .new fs =>
      let (t, reg2) := templateNew fs reg
      (reg2, log ++ [t])
  | (reg, log), .pop => (popLast reg, log)

/-- Run a sequence of registry operations from the initial empty
registry of a fresh process. -/
def runOps (ops : List RegOp) : List Template × List Template :=
  ops.foldl applyOp ([], [])

/-- Python `str(n)` as a string. -/
def natStr (n : Nat) : String := String.mk (decChars n)

/-- Python `str(i)` for an int: a minus sign before the decimal digits
when negative. -/
def intStr (i : Int) : String :=
  if i < 0 then "-" ++ natStr i.natAbs else natStr i.toNat

/-- Python `str(list_of_ints)`: elements joined by a comma and a space
inside square brackets. -/
def listIntStr (l : List Int) : String :=
  "[" ++ String.intercalate ", " (l.map intStr) ++ "]"

/-- `Feature.__repr__`: the variant name applied to the positions list,
e.g. a feature of variant `Word` at positions 0 and 1 prints as the
name followed by `([0, 1])`. -/
def featureStr (f : Feature) : String :=
  f.name ++ "(" ++ listIntStr f.positions ++ ")"

/-- `Template.__repr__`: the class name applied to the comma-joined
feature strings. -/
def templateStr (t : Template) : String :=
  "Template(" ++ String.intercalate "," (t.features.map featureStr) ++ ")"

/-- `itertools.product(*lists)`: the Cartesian product of the given
lists, leftmost factor varying slowest, exactly in itertools order. -/
def listProd {α : Type} : List (List α) → List (List α)
  | [] => [[]]
  | l :: ls => l.flatMap (fun x => (listProd ls).map (fun xs => x :: xs))

/-- `itertools.combinations(xs, r)`: all length-`r` subsequences of
`xs`, in itertools (lexicographic-by-index) order. -/
def combinationsList {α : Type} : Nat → List α → List (List α)
  | 0, _ => [[]]
  | _ + 1, [] => []
  | r + 1, x :: xs =>
      (combinationsList r xs).map (fun c => x :: c) ++ combinationsList (r + 1) xs

/-- The `combinations` parameter of `Template.expand`: `None`, a single
size, or an inclusive size range. -/
inductive Combinations where
  | noneK
  | intK (k : Nat)
  | pairK (k1 k2 : Nat)

/-- The sizes `range(*combrange)` that `nonempty_powerset` uses:
`None` gives `1 .. n`, an int `k` gives `k` alone, a pair `(k1, k2)`
gives `k1 .. k2`. -/
def combrangeList (c : Combinations) (n : Nat) : List Nat :=
  match c with
  | .noneK => List.range' 1 n
  | .intK k => [k]
  | .pairK k1 k2 => List.range' k1 (k2 + 1 - k1)

/-- Python `enumerate`, from a given start index. -/
def enumFrom {α : Type} : Nat → List α → List (Nat × α)
  | _, [] => []
  | n, x :: xs => (n, x) :: enumFrom (n + 1) xs

/-- `any(i != j and p(x, y) for (i, x) in enumerate(l) for (j, y) in
enumerate(l))`: some ordered pair of distinct indices satisfies `p`. -/
def pairAny (p : Feature → Feature → Bool) (l : List Feature) : Bool :=
  (enumFrom 0 l).any (fun ix =>
    (enumFrom 0 l).any (fun jy => (ix.1 != jy.1) && p ix.2 jy.2))

/-- Insert an element at a given position of a list. -/
def insertAt {α : Type} (n : Nat) (x : α) (l : List α) : List α :=
  l.take n ++ x :: l.drop n

/-- The binary search of CPython's binary insertion sort: find the
insertion point of `pivot` in the sorted prefix `l`, halving
`[lo, hi)` with the comparison `pivot < l[mid]`, with explicit fuel
(`l.length + 1` always suffices, the interval shrinks every step). -/
def bposAux {α : Type} [Inhabited α] (lt : α → α → Bool) (pivot : α)
    (l : List α) : Nat → Nat → Nat → Nat
  | 0, lo, _ => lo
  | fuel + 1, lo, hi =>
      if lo < hi then
        let mid := (lo + hi) / 2
        if lt pivot (l.getD mid default) then bposAux lt pivot l fuel lo mid
        else bposAux lt pivot l fuel (mid + 1) hi
      else lo

/-- Insertion point of `pivot` in `l` under `lt`. -/
def bpos {α : Type} [Inhabited α] (lt : α → α → Bool) (pivot : α)
    (l : List α) : Nat :=
  bposAux lt pivot l (l.length + 1) 0 l.length

/-- Python `sorted` modelled as binary insertion sort with CPython's
search loop.  For a consistent strict-order comparison, and for every
comparison on lists of length at most two, this agrees with CPython's
list sort. -/
def pySorted {α : Type} [Inhabited α] (lt : α → α → Bool) (l : List α) : List α :=
  l.foldl (fun acc x => insertAt (bpos lt x acc) x acc) []

instance : Inhabited Feature := ⟨⟨"", []⟩⟩

/-- The mutable state of one `Template.expand` call: the registry, the
`seentemplates` set (a list with membership, faithful to a Python set
of strings), and the templates yielded so far. -/
structure ExpandState where
  reg : List Template
  seen : List String
  out : List Template
deriving DecidableEq, Repr

/-- The body of `Template.expand`'s loop for one candidate `pick`:
skip it when some feature is a superset of a feature at another index;
when `skipintersecting`, skip it likewise for intersection; otherwise
construct `cls(*sorted(pick))`, and if its string form was already
seen pop the registration, else record and yield it. -/
def expandStep (skipintersecting : Bool) (st : ExpandState)
    (pick : List Feature) : ExpandState :=
  if pairAny Feature.issuperset pick then st
  else if skipintersecting && pairAny Feature.intersects pick then st
  else
    let t := (templateNew (pySorted featureLt pick) st.reg).1
    let reg2 := (templateNew (pySorted featureLt pick) st.reg).2
    let s := templateStr t
    if st.seen.contains s then { st with reg := popLast reg2 }
    else { reg := reg2, seen := st.seen ++ [s], out := st.out ++ [t] }

/-- `Template.expand(featurelists, combinations, skipintersecting)`,
run to exhaustion from a given registry: for every size in the
combinations range, for every size-selection of slots in order, for
every pick in the Cartesian product of the selected slots, run
`expandStep`.  `out` collects the yielded templates in order. -/
def templateExpand (featurelists : List (List Feature)) (c : Combinations)
    (skipintersecting : Bool) (reg : List Template) : ExpandState :=
  let picks := ((combrangeList c featurelists.length).flatMap
    (fun r => combinationsList r featurelists)).flatMap listProd
  picks.foldl (expandStep skipintersecting) ⟨reg, [], []⟩

/-- A tagged token: a (word, tag) pair. -/
abbrev Tok := String × String

/-- Modelled from the spec: the external `Rule` record
(`nltk.tag.brill.rule.Rule` is not under `src/`); per spec section 3 a
Rule is identified by `(template_id, original_tag, replacement_tag,
conditions)`, each condition being a `(feature, extracted_value)`
pair. -/
structure PRule (V : Type) where
  templateId : String
  original : String
  replacement : String
  conditions : List (Feature × V)
deriving DecidableEq, Repr

/-- An extraction map: `extract_property` is abstract in the source and
supplied per variant, so it is modelled as a function keyed by the
variant name, taking the whole token sequence and an absolute index. -/
abbrev Extract (V : Type) := String → List Tok → Nat → V

/-- `Template._applicable_conditions(tokens, index)`, as the source's
loop: for each feature append a fresh condition list, and for each of
its positions append `(feature, extract_property(tokens, index+pos))`
when `0 <= index+pos < len(tokens)`, silently skipping the rest. -/
def applicableConditions {V : Type} (extract : Extract V) (t : Template)
    (tokens : List Tok) (index : Nat) : List (List (Feature × V)) :=
  t.features.foldl (fun conds f =>
    conds ++ [f.positions.foldl (fun cl p =>
      if 0 ≤ (index : Int) + p ∧ (index : Int) + p < tokens.length then
        cl ++ [(f, extract f.name tokens ((index : Int) + p).toNat)]
      else cl) []]) []

/-- The condition list of one feature as the specification words it:
the in-bounds offsets of the feature, each mapped to
`(feature, extract_property(tokens, index + p))`, in position order. -/
def specCond {V : Type} (extract : Extract V) (tokens : List Tok)
    (index : Nat) (f : Feature) : List (Feature × V) :=
  (f.positions.filter (fun p =>
      decide (0 ≤ (index : Int) + p) && decide ((index : Int) + p < tokens.length))).map
    (fun p => (f, extract f.name tokens ((index : Int) + p).toNat))

/-- `Template.applicable_rules(tokens, index, correct_tag)`: nothing if
the tag is already correct, else one Rule per tuple of the Cartesian
product of the applicable conditions. -/
def applicableRules {V : Type} (extract : Extract V) (t : Template)
    (tokens : List Tok) (index : Nat) (correct : String) : List (PRule V) :=
  if (tokens.getD index ("", "")).2 = correct then []
  else
    (listProd (applicableConditions extract t tokens index)).map
      (fun x => ⟨t.id, (tokens.getD index ("", "")).2, correct, x⟩)

/-- Python `range(s, e)` over ints as a list. -/
def rangeList (s e : Int) : List Int :=
  (List.range (e - s).toNat).map (fun i : Nat => s + (i : Int))

/-- `min(allpositions)` where `allpositions = [0] + every feature
position`. -/
def minOff (t : Template) : Int :=
  (t.features.flatMap Feature.positions).foldl min 0

/-- `max(allpositions)` where `allpositions = [0] + every feature
position`. -/
def maxOff (t : Template) : Int :=
  (t.features.flatMap Feature.positions).foldl max 0

/-- `Template.get_neighborhood(tokens, index)`: the set holding `index`
and every `i` in `range(max(0, index - end), min(index - start + 1,
len(tokens)))`, with `start`/`end` the extreme relative offsets. -/
def getNeighborhood (t : Template) (tokens : List Tok) (index : Int) :
    Finset Int :=
  insert index
    (rangeList (max 0 (index - maxOff t))
      (min (index - minOff t + 1) tokens.length)).toFinset

/-- The registry invariant: the entry at index `k` carries id
`fmt3 k`. -/
def RegInv (reg : List Template) : Prop :=
  ∀ k (h : k < reg.length), (reg.get ⟨k, h⟩).id = fmt3 k

/-- Every template yielded by `expand` was built, after the superset
filter, as the sorted form of some surviving pick. -/
def FromPick (u : Template) : Prop :=
  ∃ pick : List Feature, pairAny Feature.issuperset pick = false ∧
    u.features = pySorted featureLt pick

/-- Argument shape (a) of `Template.__init__`: every argument is a
built `Feature` instance. -/
def shapeA (args : List TArg) : Bool := args.all isInstArg

/-- Argument shape (b) of `Template.__init__` as the code accepts it: a
`Feature` subclass followed by zero or more tuples. -/
def shapeB (args : List TArg) : Bool :=
  match args with
  | .featCls _ :: rest => rest.all isTupArg
  | _ => false

/-- The feature list `Feature.expand` returns, as the specification
words it: one Feature per window length and fitting start index, built
over the contiguous slice, in enumeration order, dropping (when
`exclude_zero`) slices containing 0. -/
def specExpand (nm : String) (starts winlens : List Int) (ez : Bool) :
    List Feature :=
  ((winlens.flatMap (fun w =>
      (List.range ((starts.length : Int) - w + 1).toNat).map
        (fun i => (starts.drop i).take w.toNat))).filter
    (fun x => !(ez && x.contains 0))).map (fun x => ⟨nm, dedupSort x⟩)

/-! ### The id format is injective -/

theorem parseDec_append (l : List Char) (c : Char) :
    parseDec (l ++ [c]) = 10 * parseDec l + (c.toNat - 48) := by
  simp [parseDec, List.foldl_append]

theorem parseDec_replicate_zero (k : Nat) (l : List Char) :
    parseDec (List.replicate k '0' ++ l) = parseDec l := by
  induction k with
  | zero => simp
  | succ k ih =>
      simpa [parseDec, List.replicate_succ, List.foldl_append] using ih

theorem digitChar_toNat (n : Nat) (h : n < 10) :
    (Nat.digitChar n).toNat - 48 = n := by
  interval_cases n <;> decide

theorem parseDec_decCharsAux (fuel n : Nat) (h : n < fuel) :
    parseDec (decCharsAux fuel n) = n := by
  induction fuel generalizing n with
  | zero => omega
  | succ fuel ih =>
      by_cases hn : n < 10
      · simp [decCharsAux, hn, parseDec, digitChar_toNat n hn]
      · have hdiv : n / 10 < fuel := by omega
        simp [decCharsAux, hn, parseDec_append, ih _ hdiv,
          digitChar_toNat (n % 10) (Nat.mod_lt _ (by omega))]
        omega

theorem parseDec_decChars (n : Nat) : parseDec (decChars n) = n :=
  parseDec_decCharsAux (n + 1) n (Nat.lt_succ_self n)

theorem fmt3_injective : Function.Injective fmt3 := by
  intro m n h
  have hd : (fmt3 m).data = (fmt3 n).data := by rw [h]
  simp only [fmt3] at hd
  have := congrArg parseDec hd
  rwa [parseDec_replicate_zero, parseDec_replicate_zero,
    parseDec_decChars, parseDec_decChars] at this

/-! ### Registry invariant -/

theorem regInv_nil : RegInv [] := by
  intro k h
  simp at h

theorem regInv_templateNew {reg : List Template} (h : RegInv reg)
    (fs : List Feature) : RegInv (templateNew fs reg).2 := by
  intro k hk
  simp only [templateNew, List.length_append, List.length_cons,
    List.length_nil] at hk
  by_cases hlt : k < reg.length
  · have := h k hlt
    simpa [templateNew, List.get_eq_getElem, List.getElem_append_left hlt] using this
  · have hke : k = reg.length := by omega
    subst hke
    simp [templateNew, List.get_eq_getElem, List.getElem_append_right (Nat.le_refl _)]

theorem regInv_popLast {reg : List Template} (h : RegInv reg) :
    RegInv (popLast reg) := by
  intro k hk
  have hk2 : k < reg.length := by
    simp [popLast, List.length_dropLast] at hk
    omega
  have := h k hk2
  simpa [popLast, List.get_eq_getElem, List.getElem_dropLast] using this

theorem regInv_applyOp {st : List Template × List Template}
    (h : RegInv st.1) (op : RegOp) : RegInv (applyOp st op).1 := by
  obtain ⟨reg, log⟩ := st
  cases op with
  | new fs => exact regInv_templateNew h fs
  | pop => exact regInv_popLast h

theorem regInv_foldl (ops : List RegOp) :
    ∀ st : List Template × List Template, RegInv st.1 →
      RegInv (ops.foldl applyOp st).1 := by
  induction ops with
  | nil => intro st h; simpa using h
  | cons op ops ih =>
      intro st h
      simpa using ih (applyOp st op) (regInv_applyOp h op)

theorem regInv_runOps (ops : List RegOp) : RegInv (runOps ops).1 :=
  regInv_foldl ops ([], []) regInv_nil

/-! ### Accumulating loops as map and filter -/

theorem foldl_append_singleton_map {α β : Type} (g : α → β) (l : List α) :
    ∀ acc : List β, l.foldl (fun cs f => cs ++ [g f]) acc = acc ++ l.map g := by
  induction l with
  | nil => intro acc; simp
  | cons x xs ih => intro acc; simp [List.foldl_cons, ih]

theorem foldl_filtered_append {α β : Type} (P : α → Prop) [DecidablePred P]
    (h : α → β) (l : List α) :
    ∀ acc : List β,
      l.foldl (fun cl p => if P p then cl ++ [h p] else cl) acc
        = acc ++ ((l.filter (fun p => decide (P p))).map h) := by
  induction l with
  | nil => intro acc; simp
  | cons x xs ih =>
      intro acc
      by_cases hx : P x <;> simp [List.foldl_cons, hx, ih]

theorem applicableConditions_eq_specCond {V : Type} (extract : Extract V)
    (t : Template) (tokens : List Tok) (index : Nat) :
    applicableConditions extract t tokens index
      = t.features.map (specCond extract tokens index) := by
  rw [applicableConditions, foldl_append_singleton_map]
  simp only [List.nil_append]
  apply List.map_congr_left
  intro f _
  rw [foldl_filtered_append
    (P := fun p => 0 ≤ (index : Int) + p ∧ (index : Int) + p < tokens.length)]
  simp only [List.nil_append, specCond]
  congr 1
  apply List.filter_congr
  intro p _
  simp [Bool.decide_and]

theorem listProd_eq_nil_of_mem_nil {α : Type} (L : List (List α))
    (h : [] ∈ L) : listProd L = [] := by
  induction L with
  | nil => simp at h
  | cons l ls ih =>
      rcases List.mem_cons.mp h with h1 | h2
      · subst h1; simp [listProd]
      · simp [listProd, ih h2]

/-! ### The modelled sort permutes its input -/

theorem insertAt_perm {α : Type} (n : Nat) (x : α) (l : List α) :
    (insertAt n x l).Perm (x :: l) := by
  have h1 : (l.take n ++ x :: l.drop n).Perm (x :: (l.take n ++ l.drop n)) :=
    List.perm_middle
  simpa [insertAt, List.take_append_drop] using h1

theorem pySorted_foldl_perm {α : Type} [Inhabited α] (lt : α → α → Bool)
    (l : List α) :
    ∀ acc : List α,
      (l.foldl (fun acc x => insertAt (bpos lt x acc) x acc) acc).Perm (acc ++ l) := by
  induction l with
  | nil => intro acc; simp
  | cons x xs ih =>
      intro acc
      have h1 := ih (insertAt (bpos lt x acc) x acc)
      have h2 : (insertAt (bpos lt x acc) x acc ++ xs).Perm (acc ++ x :: xs) :=
        ((insertAt_perm _ x acc).append_right xs).trans List.perm_middle.symm
      simpa [List.foldl_cons] using h1.trans h2

theorem pySorted_perm {α : Type} [Inhabited α] (lt : α → α → Bool)
    (l : List α) : (pySorted lt l).Perm l := by
  simpa [pySorted] using pySorted_foldl_perm lt l []

theorem mem_pySorted {α : Type} [Inhabited α] (lt : α → α → Bool)
    (l : List α) (x : α) : x ∈ pySorted lt l ↔ x ∈ l :=
  (pySorted_perm lt l).mem_iff

/-! ### The pairwise-index check -/

theorem mem_enumFrom {α : Type} (l : List α) :
    ∀ (n i : Nat) (h : i < l.length), (n + i, l[i]) ∈ enumFrom n l := by
  induction l with
  | nil => intro n i h; simp at h
  | cons x xs ih =>
      intro n i h
      cases i with
      | zero => simp [enumFrom]
      | succ i =>
          have h2 : i < xs.length := by simpa using Nat.lt_of_succ_lt_succ h
          have h3 := ih (n + 1) i h2
          simp only [enumFrom, List.mem_cons]
          right
          have h4 : n + (i + 1) = (n + 1) + i := by omega
          rw [List.getElem_cons_succ, h4]
          exact h3

theorem pairAny_of_indices (p : Feature → Feature → Bool) (l : List Feature)
    (i j : Nat) (hi : i < l.length) (hj : j < l.length) (hij : i ≠ j)
    (hp : p l[i] l[j] = true) :
    pairAny p l = true := by
  rw [pairAny, List.any_eq_true]
  refine ⟨(i, l[i]), by simpa using mem_enumFrom l 0 i hi, ?_⟩
  rw [List.any_eq_true]
  refine ⟨(j, l[j]), by simpa using mem_enumFrom l 0 j hj, ?_⟩
  simp [hp, hij]

/-! ### What expand yields -/

theorem expandStep_out_cases (si : Bool) (st : ExpandState) (pick : List Feature) :
    (expandStep si st pick).out = st.out ∨
      (pairAny Feature.issuperset pick = false ∧
        (expandStep si st pick).out
          = st.out ++ [(templateNew (pySorted featureLt pick) st.reg).1]) := by
  simp only [expandStep]
  split_ifs with h1 h2 h3
  · exact Or.inl rfl
  · exact Or.inl rfl
  · exact Or.inl rfl
  · exact Or.inr ⟨by simpa using h1, rfl⟩

theorem expandStep_out (si : Bool) (st : ExpandState) (pick : List Feature)
    (h : ∀ u ∈ st.out, FromPick u) :
    ∀ u ∈ (expandStep si st pick).out, FromPick u := by
  intro u hu
  rcases expandStep_out_cases si st pick with hc | ⟨h1, hc⟩
  · exact h u (hc ▸ hu)
  · rw [hc] at hu
    rcases List.mem_append.mp hu with h4 | h4
    · exact h u h4
    · have h5 : u = (templateNew (pySorted featureLt pick) st.reg).1 := by
        simpa using h4
      exact ⟨pick, h1, by subst h5; rfl⟩

theorem expand_foldl_out (si : Bool) (picks : List (List Feature)) :
    ∀ st : ExpandState, (∀ u ∈ st.out, FromPick u) →
      ∀ u ∈ (picks.foldl (expandStep si) st).out, FromPick u := by
  induction picks with
  | nil => intro st h; simpa using h
  | cons pick picks ih =>
      intro st h
      simpa using ih (expandStep si st pick) (expandStep_out si st pick h)

theorem templateExpand_out (featurelists : List (List Feature))
    (c : Combinations) (si : Bool) (reg : List Template) :
    ∀ u ∈ (templateExpand featurelists c si reg).out, FromPick u := by
  intro u hu
  exact expand_foldl_out si _ ⟨reg, [], []⟩ (by intro v hv; simp at hv) u hu

/-! ### Integer range membership -/

theorem mem_rangeList (s e p : Int) : p ∈ rangeList s e ↔ s ≤ p ∧ p < e := by
  constructor
  · intro h
    rw [rangeList, List.mem_map] at h
    obtain ⟨i, hi, hip⟩ := h
    rw [List.mem_range] at hi
    omega
  · intro h
    rw [rangeList, List.mem_map]
    refine ⟨(p - s).toNat, ?_, ?_⟩
    · rw [List.mem_range]; omega
    · omega

/-! ### mapM over always-succeeding element constructors -/

theorem mapM_ok_of_forall {α β : Type} (f : α → Except PyErr β) (g : α → β)
    (l : List α) (h : ∀ x ∈ l, f x = .ok (g x)) :
    l.mapM f = .ok (l.map g) := by
  induction l with
  | nil => rfl
  | cons x xs ih =>
      rw [List.mapM_cons, h x (by simp)]
      rw [ih (fun y hy => h y (by simp [hy]))]
      rfl

theorem mapM_pyToInt_int (xs : List Int) :
    (xs.map PyVal.int).mapM pyToInt = .ok xs := by
  induction xs with
  | nil => rfl
  | cons x xs ih =>
      rw [List.map_cons, List.mapM_cons]
      rw [show pyToInt (PyVal.int x) = .ok x from rfl, ih]
      rfl

theorem mem_insertSortedU (x y : Int) (l : List Int) :
    y ∈ insertSortedU x l ↔ y = x ∨ y ∈ l := by
  induction l with
  | nil => simp [insertSortedU]
  | cons z zs ih =>
      rw [insertSortedU]
      split_ifs with h1 h2
      · simp
      · subst h2
        simp
      · simp [ih]
        tauto

theorem sorted_insertSortedU (x : Int) (l : List Int)
    (h : List.Sorted (· < ·) l) : List.Sorted (· < ·) (insertSortedU x l) := by
  induction l with
  | nil => simp [insertSortedU]
  | cons z zs ih =>
      rw [List.sorted_cons] at h
      obtain ⟨hz, hzs⟩ := h
      rw [insertSortedU]
      split_ifs with h1 h2
      · rw [List.sorted_cons]
        refine ⟨?_, List.sorted_cons.mpr ⟨hz, hzs⟩⟩
        intro b hb
        rcases List.mem_cons.mp hb with rfl | hb2
        · exact h1
        · exact lt_trans h1 (hz b hb2)
      · exact List.sorted_cons.mpr ⟨hz, hzs⟩
      · rw [List.sorted_cons]
        refine ⟨?_, ih hzs⟩
        intro b hb
        rcases (mem_insertSortedU x b zs).mp hb with rfl | hb2
        · omega
        · exact hz b hb2

theorem dedupSort_foldl_sorted (l : List Int) :
    ∀ acc : List Int, List.Sorted (· < ·) acc →
      List.Sorted (· < ·) (l.foldl (fun acc x => insertSortedU x acc) acc) := by
  induction l with
  | nil => intro acc h; simpa using h
  | cons x xs ih =>
      intro acc h
      simpa using ih (insertSortedU x acc) (sorted_insertSortedU x acc h)

theorem dedupSort_sorted (l : List Int) : List.Sorted (· < ·) (dedupSort l) :=
  dedupSort_foldl_sorted l [] (by simp)

theorem dedupSort_foldl_mem (l : List Int) (y : Int) :
    ∀ acc : List Int,
      (y ∈ l.foldl (fun acc x => insertSortedU x acc) acc ↔ y ∈ acc ∨ y ∈ l) := by
  induction l with
  | nil => intro acc; simp
  | cons x xs ih =>
      intro acc
      rw [List.foldl_cons, ih (insertSortedU x acc), mem_insertSortedU]
      simp
      tauto

theorem mem_dedupSort (l : List Int) (y : Int) : y ∈ dedupSort l ↔ y ∈ l := by
  rw [dedupSort, dedupSort_foldl_mem]
  simp

theorem mapM_pyToInt_error_of_none (vs : List PyVal) (h : PyVal.none ∈ vs) :
    ∃ e, vs.mapM pyToInt = .error e := by
  induction vs with
  | nil => simp at h
  | cons v vs ih =>
      rcases List.mem_cons.mp h with rfl | h2
      · exact ⟨.typeError, by rw [List.mapM_cons]; rfl⟩
      · cases hv : pyToInt v with
        | error e => exact ⟨e, by rw [List.mapM_cons, hv]; rfl⟩
        | ok n =>
            obtain ⟨e, he⟩ := ih h2
            exact ⟨e, by rw [List.mapM_cons, hv]; show (vs.mapM pyToInt >>= _) = _; rw [he]; rfl⟩

theorem featureInit_intList (nm : String) (xs : List Int) :
    featureInit nm (PyVal.list (xs.map PyVal.int)) Option.none
      = .ok ⟨nm, dedupSort xs⟩ := by
  show (pyIter (PyVal.list (xs.map PyVal.int)) >>= fun l =>
      l.mapM pyToInt >>= fun is => Except.ok (⟨nm, dedupSort is⟩ : Feature))
    = .ok ⟨nm, dedupSort xs⟩
  rw [show pyIter (PyVal.list (xs.map PyVal.int)) = .ok (xs.map PyVal.int) from rfl]
  show (xs.map PyVal.int).mapM pyToInt >>= (fun is => Except.ok (⟨nm, dedupSort is⟩ : Feature))
    = .ok ⟨nm, dedupSort xs⟩
  rw [mapM_pyToInt_int]
  rfl
theorem getD_tokens_eq (l : List Tok) (i : Nat) (h : i < l.length) :
    l.getD i ("", "") = l[i] := by
  rw [List.getD_eq_getElem?_getD, List.getElem?_eq_getElem h]
  rfl

/-! ## The claims -/

/-- C1: for every tagged sequence, valid index and correct tag:
if the indexed token's tag equals the correct tag, `applicable_rules`
returns the empty list; otherwise it returns exactly one Rule
(template id, original tag, replacement tag, conditions) per tuple of
the Cartesian product, in Feature order, of the per-Feature condition
lists, each condition list holding `(feature, extract_property)` at
exactly the in-bounds offsets (out-of-bounds offsets skipped without
raising); and if some Feature's condition list is empty the result is
empty. -/
theorem c1_applicable_rules {V : Type} (extract : Extract V) (t : Template)
    (tokens : List Tok) (index : Nat) (h : index < tokens.length)
    (correct : String) :
    ((tokens[index].2 = correct →
        applicableRules extract t tokens index correct = []) ∧
      (tokens[index].2 ≠ correct →
        applicableRules extract t tokens index correct
          = (listProd (t.features.map (specCond extract tokens index))).map
              (fun conds => ⟨t.id, tokens[index].2, correct, conds⟩)) ∧
      ((∃ f ∈ t.features, specCond extract tokens index f = []) →
        applicableRules extract t tokens index correct = [])) := by
  have hg : tokens.getD index ("", "") = tokens[index] := getD_tokens_eq tokens index h
  refine ⟨?_, ?_, ?_⟩
  · intro he
    rw [applicableRules, hg, if_pos he]
  · intro hne
    rw [applicableRules, hg, if_neg hne, applicableConditions_eq_specCond]
  · intro hex
    obtain ⟨f, hf, hfe⟩ := hex
    by_cases he : tokens[index].2 = correct
    · rw [applicableRules, hg, if_pos he]
    · rw [applicableRules, hg, if_neg he, applicableConditions_eq_specCond]
      rw [listProd_eq_nil_of_mem_nil]
      · rfl
      · exact List.mem_map.mpr ⟨f, hf, hfe⟩

theorem c1_applicable_rules_witness :
    applicableRules (fun _ _ _ => "w") ⟨"000", [⟨"F", [0]⟩]⟩
        [("a", "DT"), ("b", "NN")] 0 "NN"
      = (listProd ([⟨"F", [0]⟩].map
          (specCond (fun _ _ _ => "w") [("a", "DT"), ("b", "NN")] 0))).map
          (fun conds => ⟨"000", "DT", "NN", conds⟩) :=
  (c1_applicable_rules (fun _ _ _ => "w") ⟨"000", [⟨"F", [0]⟩]⟩
    [("a", "DT"), ("b", "NN")] 0 (by decide) "NN").2.1 (by decide)

/-- C2: the claim that a single `Template.expand` call never yields two
Templates with identical canonical sorted feature sequences is violated
by the code: with two Feature variants A and B (so that the buggy
`Feature.__lt__` is not a total order), the feature lists
`[[B([0])], [A([1])], [B([0])]]` make `expand` yield, at output
positions 2 and 3, the templates `Template(A([1]),B([0]))` and
`Template(B([0]),A([1]))`, whose canonical sorted feature sequences (by
the specified name-then-positions order) are both `[A([1]), B([0])]`. -/
theorem c2_expand_duplicate :
    ((templateExpand [[⟨"B", [0]⟩], [⟨"A", [1]⟩], [⟨"B", [0]⟩]]
        Combinations.noneK true []).out.length = 4 ∧
      pySorted claimLt
          (((templateExpand [[⟨"B", [0]⟩], [⟨"A", [1]⟩], [⟨"B", [0]⟩]]
            Combinations.noneK true []).out.getD 2 ⟨"", []⟩).features)
        = pySorted claimLt
          (((templateExpand [[⟨"B", [0]⟩], [⟨"A", [1]⟩], [⟨"B", [0]⟩]]
            Combinations.noneK true []).out.getD 3 ⟨"", []⟩).features) ∧
      ((templateExpand [[⟨"B", [0]⟩], [⟨"A", [1]⟩], [⟨"B", [0]⟩]]
          Combinations.noneK true []).out.getD 2 ⟨"", []⟩).features
        ≠ ((templateExpand [[⟨"B", [0]⟩], [⟨"A", [1]⟩], [⟨"B", [0]⟩]]
          Combinations.noneK true []).out.getD 3 ⟨"", []⟩).features) := by
  decide

/-- C3: the claim that `Feature.__lt__` is the strict total order keyed
by variant name then positions is violated by the code: with
a = B([0]) and b = A([1]) both `a < b` and `b < a` hold (the coded
comparison is name-less-than OR positions-less-than), so asymmetry
fails, while the specified keyed comparison makes `a < b` false. -/
theorem c3_lt_not_keyed_order :
    (featureLt ⟨"B", [0]⟩ ⟨"A", [1]⟩ = true ∧
      featureLt ⟨"A", [1]⟩ ⟨"B", [0]⟩ = true ∧
      claimLt ⟨"B", [0]⟩ ⟨"A", [1]⟩ = false) := by
  decide

/-- C4: `get_neighborhood(tokens, index)` equals the set holding
`index` together with every in-range absolute position p satisfying
p + min_off <= index <= p + max_off, and for a Template with one
Feature at positions [0] it is exactly the singleton of the index. -/
theorem c4_get_neighborhood (t : Template) (tokens : List Tok) (index : Int) :
    ((∀ p : Int, p ∈ getNeighborhood t tokens index ↔
        p = index ∨ (0 ≤ p ∧ p < tokens.length ∧
          p + minOff t ≤ index ∧ index ≤ p + maxOff t)) ∧
      (∀ nm : String, t.features = [⟨nm, [0]⟩] →
        getNeighborhood t tokens index = {index})) := by
  constructor
  · intro p
    rw [getNeighborhood, Finset.mem_insert, List.mem_toFinset, mem_rangeList]
    omega
  · intro nm hf
    have hmin : minOff t = 0 := by rw [minOff, hf]; rfl
    have hmax : maxOff t = 0 := by rw [maxOff, hf]; rfl
    ext p
    rw [getNeighborhood, Finset.mem_insert, List.mem_toFinset, mem_rangeList,
      hmin, hmax, Finset.mem_singleton]
    omega

theorem c4_get_neighborhood_witness :
    getNeighborhood ⟨"000", [⟨"F", [0]⟩]⟩ [("a", "A"), ("b", "B"), ("c", "C")] 1
      = {1} :=
  (c4_get_neighborhood ⟨"000", [⟨"F", [0]⟩]⟩
    [("a", "A"), ("b", "B"), ("c", "C")] 1).2 "F" rfl

/-- C5: no Template yielded by `Template.expand` contains two distinct
Features one of which is a superset (same variant, position inclusion)
of the other, for any combinations value and either skipintersecting
setting. -/
theorem c5_no_superset_pair (featurelists : List (List Feature))
    (c : Combinations) (si : Bool) (reg : List Template) (u : Template)
    (hu : u ∈ (templateExpand featurelists c si reg).out)
    (X Y : Feature) (hne : X ≠ Y) (hsup : X.issuperset Y = true) :
    ¬(X ∈ u.features ∧ Y ∈ u.features) := by
  rintro ⟨hX, hY⟩
  obtain ⟨pick, hps, hfeat⟩ := templateExpand_out featurelists c si reg u hu
  rw [hfeat, mem_pySorted] at hX hY
  obtain ⟨i, hi, hieq⟩ := List.mem_iff_getElem.mp hX
  obtain ⟨j, hj, hjeq⟩ := List.mem_iff_getElem.mp hY
  have hij : i ≠ j := by
    intro hh
    subst hh
    exact hne (hieq.symm.trans hjeq)
  have hpair := pairAny_of_indices Feature.issuperset pick i j hi hj hij
    (by rw [hieq, hjeq]; exact hsup)
  rw [hps] at hpair
  exact Bool.false_ne_true hpair

theorem c5_no_superset_pair_witness :
    ¬((⟨"W", [0, 1]⟩ : Feature)
        ∈ ((templateExpand [[⟨"W", [0]⟩]] Combinations.noneK true []).out.getD 0
            ⟨"", []⟩).features ∧
      (⟨"W", [0]⟩ : Feature)
        ∈ ((templateExpand [[⟨"W", [0]⟩]] Combinations.noneK true []).out.getD 0
            ⟨"", []⟩).features) :=
  c5_no_superset_pair [[⟨"W", [0]⟩]] Combinations.noneK true []
    ((templateExpand [[⟨"W", [0]⟩]] Combinations.noneK true []).out.getD 0 ⟨"", []⟩)
    (by decide) ⟨"W", [0, 1]⟩ ⟨"W", [0]⟩ (by decide) (by decide)

/-- C6: with all window lengths positive, `Feature.expand` returns
exactly the claimed enumeration (one Feature per window length and
fitting start index, over the contiguous slice, in order, dropping
zero-containing slices when requested); a non-positive window length
gives a validation error; and the two concrete instances of the claim
hold (7 features, and 5 with exclude_zero). -/
theorem c6_feature_expand (nm : String) (starts winlens : List Int) (ez : Bool) :
    (((∀ w ∈ winlens, 0 < w) →
        featureExpand nm starts winlens ez
          = .ok (specExpand nm starts winlens ez)) ∧
      ((∃ w ∈ winlens, w ≤ 0) →
        featureExpand nm starts winlens ez = .error .valueError) ∧
      featureExpand nm [0, 1, 2, 3] [1, 2] false
        = .ok [⟨nm, [0]⟩, ⟨nm, [1]⟩, ⟨nm, [2]⟩, ⟨nm, [3]⟩,
               ⟨nm, [0, 1]⟩, ⟨nm, [1, 2]⟩, ⟨nm, [2, 3]⟩] ∧
      featureExpand nm [0, 1, 2, 3] [1, 2] true
        = .ok [⟨nm, [1]⟩, ⟨nm, [2]⟩, ⟨nm, [3]⟩, ⟨nm, [1, 2]⟩, ⟨nm, [2, 3]⟩]) := by
  refine ⟨?_, ?_, ?_, ?_⟩
  · intro hpos
    have hall : winlens.all (fun x => decide (0 < x)) = true := by
      rw [List.all_eq_true]
      intro w hw
      exact decide_eq_true (hpos w hw)
    rw [featureExpand, hall]
    show (_ : List (List Int)).mapM _ = _
    exact mapM_ok_of_forall _ _ _ (fun x _ => featureInit_intList nm x)
  · intro hex
    have hall : winlens.all (fun x => decide (0 < x)) = false := by
      obtain ⟨w, hw, hwle⟩ := hex
      rcases h : winlens.all (fun x => decide (0 < x)) with _ | _
      · rfl
      · rw [List.all_eq_true] at h
        have := of_decide_eq_true (h w hw)
        omega
    rw [featureExpand, hall]
    rfl
  · rfl
  · rfl

theorem c6_feature_expand_witness :
    featureExpand "F" [0, 1] [1] false = .ok (specExpand "F" [0, 1] [1] false) :=
  (c6_feature_expand "F" [0, 1] [1] false).1 (by decide)

/-- C7 (amended): every Template's id is the zero-padded registry
length at the moment of its construction, and the ids of the Templates
currently in the Registry are pairwise distinct; but (contrary to the
original claim) a construction that follows an undo-last reuses the
undone Template's id, so ids over all constructed Templates are neither
monotonic nor unique. -/
theorem c7_template_ids (ops : List RegOp) (fs : List Feature) :
    (((runOps (ops ++ [RegOp.new fs])).2
        = (runOps ops).2 ++ [⟨fmt3 (runOps ops).1.length, fs⟩]) ∧
      (∀ j k (hj : j < (runOps ops).1.length) (hk : k < (runOps ops).1.length),
        j ≠ k →
          ((runOps ops).1.get ⟨j, hj⟩).id ≠ ((runOps ops).1.get ⟨k, hk⟩).id)) := by
  constructor
  · have h1 : runOps (ops ++ [RegOp.new fs])
        = applyOp (runOps ops) (RegOp.new fs) := by
      rw [runOps, runOps, List.foldl_append]
      rfl
    rw [h1]
    rfl
  · intro j k hj hk hjk heq
    rw [regInv_runOps ops j hj, regInv_runOps ops k hk] at heq
    exact hjk (fmt3_injective heq)

theorem c7_template_ids_counterexample :
    ((runOps [RegOp.new [], RegOp.pop, RegOp.new []]).2.map Template.id)
      = ["000", "000"] := by
  decide

theorem c7_template_ids_witness :
    ((runOps [RegOp.new [], RegOp.new [⟨"W", [0]⟩]]).1.get ⟨0, by decide⟩).id
      ≠ ((runOps [RegOp.new [], RegOp.new [⟨"W", [0]⟩]]).1.get ⟨1, by decide⟩).id :=
  (c7_template_ids [RegOp.new [], RegOp.new [⟨"W", [0]⟩]] []).2 0 1
    (by decide) (by decide) (by decide)

/-- C8 (amended): constructing a Template with any argument shape other
than (a) a sequence of already-built Feature instances or (b) a single
Feature variant followed by ZERO or more position tuples fails with a
usage error (TypeError) and leaves the Registry unchanged.  (The
original claim required one or more tuples in form (b); the code
accepts a bare Feature variant, producing an empty-feature Template.) -/
theorem c8_template_shape (args : List TArg) (reg : List Template)
    (hA : shapeA args = false) (hB : shapeB args = false) :
    templateInit args reg = (.error .typeError, reg) := by
  rw [shapeA] at hA
  cases args with
  | nil => simp at hA
  | cons a0 rest =>
      cases a0 with
      | inst f => simp [templateInit, hA]
      | featCls nm =>
          have hB2 : rest.all isTupArg = false := by simpa [shapeB] using hB
          simp [templateInit, hA, hB2]
      | tup vs => simp [templateInit, hA]
      | other => simp [templateInit, hA]

theorem c8_template_shape_counterexample :
    ((templateInit [TArg.featCls "W"] []).1 = Except.ok ⟨"000", []⟩ ∧
      (templateInit [TArg.featCls "W"] []).2 = [⟨"000", []⟩]) := by
  decide

theorem c8_template_shape_witness :
    templateInit [TArg.other] [] = (.error .typeError, []) :=
  c8_template_shape [TArg.other] [] (by decide) (by decide)

/-- C9 (amended): the contiguous-range form with start greater than end
fails with a validation error; positions not coercible to integers make
the constructor fail with the coercion's own error (a TypeError for
`None`, not always a validation error as originally claimed), nothing
being constructed; on success the stored positions are the sorted,
deduplicated tuple of the coerced ints. -/
theorem c9_feature_validation (nm : String) (a b : Int) (vs : List PyVal)
    (xs : List Int) :
    ((a > b →
        featureInit nm (PyVal.int a) (some (PyVal.int b)) = .error .valueError) ∧
      (PyVal.none ∈ vs →
        ∃ e, featureInit nm (PyVal.list vs) Option.none = .error e) ∧
      featureInit nm (PyVal.list (xs.map PyVal.int)) Option.none
        = .ok ⟨nm, dedupSort xs⟩ ∧
      List.Sorted (· < ·) (dedupSort xs) ∧
      (∀ x : Int, x ∈ dedupSort xs ↔ x ∈ xs)) := by
  refine ⟨?_, ?_, featureInit_intList nm xs, dedupSort_sorted xs,
    fun x => mem_dedupSort xs x⟩
  · intro hab
    rw [show featureInit nm (PyVal.int a) (some (PyVal.int b))
        = if a > b then Except.error PyErr.valueError
          else Except.ok ⟨nm, intRange a b⟩ from rfl, if_pos hab]
  · intro hv
    obtain ⟨e, he⟩ := mapM_pyToInt_error_of_none vs hv
    refine ⟨e, ?_⟩
    show (pyIter (PyVal.list vs) >>= fun l =>
        l.mapM pyToInt >>= fun is => Except.ok (⟨nm, dedupSort is⟩ : Feature))
      = .error e
    rw [show pyIter (PyVal.list vs) = .ok vs from rfl]
    show (vs.mapM pyToInt >>= fun is =>
        Except.ok (⟨nm, dedupSort is⟩ : Feature)) = .error e
    rw [he]
    rfl

theorem c9_feature_validation_counterexample :
    (featureInit "F" (PyVal.list [PyVal.none]) Option.none
        = .error PyErr.typeError ∧
      PyErr.typeError ≠ PyErr.valueError) := by
  decide

theorem c9_feature_validation_witness :
    featureInit "F" (PyVal.int 3) (some (PyVal.int 1)) = .error .valueError :=
  (c9_feature_validation "F" 3 1 [] []).1 (by decide)

/-- C10: after any sequence of Template constructions and pop-last
operations in a single run, the Template at index k of the Registry has
id equal to the decimal representation of k zero-padded to width 3, so
all Templates currently in the Registry have pairwise distinct ids. -/
theorem c10_registry_ids (ops : List RegOp) :
    ((∀ k (hk : k < (runOps ops).1.length),
        ((runOps ops).1.get ⟨k, hk⟩).id = fmt3 k) ∧
      (∀ j k (hj : j < (runOps ops).1.length) (hk : k < (runOps ops).1.length),
        j ≠ k →
          ((runOps ops).1.get ⟨j, hj⟩).id ≠ ((runOps ops).1.get ⟨k, hk⟩).id)) := by
  refine ⟨regInv_runOps ops, ?_⟩
  intro j k hj hk hjk heq
  rw [regInv_runOps ops j hj, regInv_runOps ops k hk] at heq
  exact hjk (fmt3_injective heq)

theorem c10_registry_ids_witness :
    ((runOps [RegOp.new [], RegOp.pop, RegOp.new [⟨"W", [0]⟩],
        RegOp.new []]).1.get ⟨1, by decide⟩).id = fmt3 1 :=
  (c10_registry_ids [RegOp.new [], RegOp.pop, RegOp.new [⟨"W", [0]⟩],
    RegOp.new []]).1 1 (by decide)

end Brill
